import Mathlib

/-!
Verification of the spatial binning / grid-construction core of the
demetra repository (grid builder, point-to-cell assigner, phantom-acre
filter, nitrogen merge, multi-pass nitrogen combination).

The Python source (src/demetra/grid/builder.py, src/agrifield/grid/operations.py,
src/demetra/ingest/nitrogen_loader.py) is shallowly embedded here:

* pandas DataFrames become Lean lists of records;
* float coordinates become exact rationals (ℚ): the arithmetic model is
  exact real arithmetic, the standard idealisation of the float code;
* `np.floor(... ).astype(int)` becomes `Int.floor` on ℚ;
* `np.round` (half-to-even, "banker's rounding") becomes `nround`;
* `np.arange(start, stop, step)` for positive step has
  `max 0 ⌈(stop - start)/step⌉` elements `start + k*step`;
* pandas `Series.min` / `Series.max` on a nonempty column become folds;
* `groupby(key).agg` followed by a left join on the key is denoted
  per-row: each grid row receives the aggregate of the points whose key
  equals the row's key (`none` when no point matches, mirroring NaN);
* code paths that raise Python exceptions return `Except.error` with a
  string naming the exception's message.

Only shapefile I/O, CRS reprojection and the settings object are outside
the embedded core (the spec declares them external collaborators); the
embedded functions take the already-loaded point lists as arguments.
-/

namespace Demetra

/-! ## Numeric helpers mirroring numpy / pandas primitives -/

/-- `np.round` to an integer: round half to even (banker's rounding). -/
def nround (q : ℚ) : ℤ :=
  let f := ⌊q⌋
  let frac := q - f
  if frac < 1/2 then f
  else if 1/2 < frac then f + 1
  else if f % 2 = 0 then f else f + 1

/-- Number of elements of `np.arange start stop step` for a positive step:
`max 0 ⌈(stop - start)/step⌉` (`Int.toNat` clamps negatives to 0). -/
def arangeLen (start stop step : ℚ) : ℕ :=
  (⌈(stop - start) / step⌉).toNat

/-- pandas `Series.min` over the nonempty column `a :: l`, as the source's
`df[col].min()`: a left fold of `min` started at the first value. -/
def seriesMin {α : Type} [LinearOrder α] (a : α) (l : List α) : α :=
  l.foldl min a

/-- pandas `Series.max` over the nonempty column `a :: l`. -/
def seriesMax {α : Type} [LinearOrder α] (a : α) (l : List α) : α :=
  l.foldl max a

/-- pandas `Series.median`: sort ascending; odd length takes the middle
element, even length the mean of the two middle elements.  The value on an
empty list is junk (the embedded callers guard emptiness first, as the
source does). -/
def median (l : List ℚ) : ℚ :=
  let s := l.insertionSort (· ≤ ·)
  let n := l.length
  if n = 0 then 0
  else if n % 2 = 1 then s.getD (n / 2) 0
  else (s.getD (n / 2 - 1) 0 + s.getD (n / 2) 0) / 2

/-! ## Data model -/

/-- One cleaned yield-monitor observation: row of the `yield_df` DataFrame
consumed by the grid builder (columns `x`, `y`, `yield_bu_ac`, `farm`,
`field`). -/
structure Point where
  x : ℚ
  y : ℚ
  yield_bu_ac : ℚ
  farm : String
  field : String
deriving DecidableEq, Repr

/-- One grid cell as produced by `build_acre_grid` (one row of `grid_df`). -/
structure GridCell where
  farm : String
  field : String
  acre_id : String
  x_min : ℚ
  x_max : ℚ
  y_min : ℚ
  y_max : ℚ
  x_center : ℚ
  y_center : ℚ
  units : String
deriving DecidableEq, Repr

/-- A grid cell after `assign_points_to_grid` appended the yield aggregates:
`mean_yield_bu_ac` is `none` where pandas would leave NaN (no matching
points) and `n_points` is the fillna(0) count. -/
structure AssignedCell extends GridCell where
  mean_yield_bu_ac : Option ℚ
  n_points : ℕ
deriving DecidableEq, Repr

/-- One nitrogen application observation (row of `nitrogen_df`). -/
structure NPoint where
  x : ℚ
  y : ℚ
  nitrogen_lb_ac : ℚ
deriving DecidableEq, Repr

/-- A grid cell after `merge_nitrogen_into_grid` appended
`mean_nitrogen_lb_ac` (`none` = NaN for unmatched cells). -/
structure NCell extends GridCell where
  mean_nitrogen_lb_ac : Option ℚ
deriving DecidableEq, Repr

/-! ## Grid builder (src/demetra/grid/builder.py, build_acre_grid) -/

/-- `f"{i:05d}"`: decimal digits of `i` left-padded with zeros to width 5. -/
def formatAcreId (i : ℕ) : String :=
  let s := toString i
  String.mk (List.replicate (5 - s.length) '0') ++ s

/-- The cell whose origin is column `c`, row `r` of the meshgrid:
`x_min = minx + c*cs`, `y_min = miny + r*cs`, box side `cs`, centers at the
midpoints, `acre_id` the raveled row-major index `r*C + c` zero-padded. -/
def cellAt (farm fld : String) (minx miny cs : ℚ) (C : ℕ) (units : String)
    (c r : ℕ) : GridCell :=
  { farm := farm
    field := fld
    acre_id := formatAcreId (r * C + c)
    x_min := minx + c * cs
    x_max := minx + c * cs + cs
    y_min := miny + r * cs
    y_max := miny + r * cs + cs
    x_center := minx + c * cs + cs / 2
    y_center := miny + r * cs + cs / 2
    units := units }

/-- The raveled meshgrid of `np.meshgrid(x_edges, y_edges)`: rows outer,
columns inner, flat index `i = r*C + c`. -/
def buildCells (farm fld : String) (minx miny cs : ℚ) (C R : ℕ)
    (units : String) : List GridCell :=
  (List.range R).flatMap fun r =>
    (List.range C).map fun c => cellAt farm fld minx miny cs C units c r

/-- Field extent minimum x, `yield_df["x"].min()` (junk 0 on an empty frame,
where pandas yields NaN; `build_acre_grid` errors out before using it). -/
def extentMinX : List Point → ℚ
  | [] => 0
  | p :: l => seriesMin p.x (l.map Point.x)

/-- Field extent maximum x, `yield_df["x"].max()`. -/
def extentMaxX : List Point → ℚ
  | [] => 0
  | p :: l => seriesMax p.x (l.map Point.x)

/-- Field extent minimum y. -/
def extentMinY : List Point → ℚ
  | [] => 0
  | p :: l => seriesMin p.y (l.map Point.y)

/-- Field extent maximum y. -/
def extentMaxY : List Point → ℚ
  | [] => 0
  | p :: l => seriesMax p.y (l.map Point.y)

/-- Number of columns `len(np.arange(min_x, max_x, cell_size))`. -/
def numColsOf (yield_df : List Point) (cell_size : ℚ) : ℕ :=
  arangeLen (extentMinX yield_df) (extentMaxX yield_df) cell_size

/-- Number of rows `len(np.arange(min_y, max_y, cell_size))`. -/
def numRowsOf (yield_df : List Point) (cell_size : ℚ) : ℕ :=
  arangeLen (extentMinY yield_df) (extentMaxY yield_df) cell_size

/-- Embeds `build_acre_grid(yield_df, cell_size, units)`.

The source has no empty-input guard: on an empty frame `min()`/`max()`
yield NaN and `np.arange(nan, nan, cell_size)` raises
`ValueError: cannot convert float NaN to integer`, modelled as the error
branch.  On nonempty input it builds the full meshgrid of cell origins
row-major, taking `farm`/`field` from the first row (`iloc[0]`). -/
def build_acre_grid (yield_df : List Point) (cell_size : ℚ) (units : String) :
    Except String (List GridCell) :=
  match yield_df with
  | [] => .error "cannot convert float NaN to integer"
  | p0 :: _ =>
    .ok (buildCells p0.farm p0.field
      (extentMinX yield_df) (extentMinY yield_df) cell_size
      (numColsOf yield_df cell_size) (numRowsOf yield_df cell_size) units)

/-! ## Point-to-cell assigner (src/demetra/grid/builder.py, assign_points_to_grid) -/

/-- A point's column (or row) bucket:
`np.floor((x - origin) / cell_size).astype(int)`. -/
def pointCol (origin cs x : ℚ) : ℤ :=
  ⌊(x - origin) / cs⌋

/-- A grid cell's column (or row) index:
`np.round((x_min - origin) / cell_size).astype(int)`. -/
def cellCol (origin cs x_min : ℚ) : ℤ :=
  nround ((x_min - origin) / cs)

/-- The shared key scheme `key = row * num_cols + col`. -/
def gridKeyOf (num_cols row col : ℤ) : ℤ :=
  row * num_cols + col

/-- One output row of the assigner: grid row `g` carrying the groupby
aggregates (`mean`, `count`) of the yield points whose key equals `k`,
as produced by the left join (`none` mean and 0 count when unmatched). -/
def assignRow (yield_df : List Point) (key : Point → ℤ) (k : ℤ)
    (g : GridCell) : AssignedCell :=
  let matching := yield_df.filter fun p => key p = k
  { toGridCell := g
    mean_yield_bu_ac :=
      if matching.length = 0 then none
      else some ((matching.map Point.yield_bu_ac).sum / matching.length)
    n_points := matching.length }

/-- The key `row * num_columns + col` of a point under floored bucketing
against the origin `(minx, miny)` with `num_columns = C`. -/
def pointKeyOf (minx miny cs : ℚ) (C : ℕ) (p : Point) : ℤ :=
  gridKeyOf C (pointCol miny cs p.y) (pointCol minx cs p.x)

/-- The key of a nitrogen point under the same floored bucketing. -/
def npointKeyOf (minx miny cs : ℚ) (C : ℕ) (p : NPoint) : ℤ :=
  gridKeyOf C (pointCol miny cs p.y) (pointCol minx cs p.x)

/-- Embeds `assign_points_to_grid(yield_df, grid_df)`.

On an empty grid `grid["x_max"].iloc[0]` raises an IndexError
("single positional indexer is out-of-bounds"), modelled as the error
branch.  Otherwise the cell size is recovered from the first row, the
origins are the column minima, `num_cols` is the maximal cell column
index plus one, and each grid row receives the mean and count of the
yield points whose key equals the row's key (left join on the groupby
aggregate; unmatched rows keep NaN mean and fillna(0) count). -/
def assign_points_to_grid (yield_df : List Point) (grid_df : List GridCell) :
    Except String (List AssignedCell) :=
  match grid_df with
  | [] => .error "single positional indexer is out-of-bounds"
  | g0 :: grest =>
    let cs := g0.x_max - g0.x_min
    let x_origin := seriesMin g0.x_min (grest.map GridCell.x_min)
    let y_origin := seriesMin g0.y_min (grest.map GridCell.y_min)
    let num_cols := seriesMax (cellCol x_origin cs g0.x_min)
      (grest.map fun g => cellCol x_origin cs g.x_min) + 1
    let pkey := fun (p : Point) =>
      gridKeyOf num_cols (pointCol y_origin cs p.y) (pointCol x_origin cs p.x)
    let ckey := fun (g : GridCell) =>
      gridKeyOf num_cols (cellCol y_origin cs g.y_min) (cellCol x_origin cs g.x_min)
    .ok ((g0 :: grest).map fun g => assignRow yield_df pkey (ckey g) g)

/-- Total of the `n_points` column of an assigned grid. -/
def sumNPoints (grid : List AssignedCell) : ℕ :=
  (grid.map AssignedCell.n_points).sum

/-! ## Grid post-processing (src/agrifield/grid/operations.py) -/

/-- `df["n_points"].median()` of an assigned grid. -/
def medianNPoints (df : List AssignedCell) : ℚ :=
  median (df.map fun c => (c.n_points : ℚ))

/-- Embeds `filter_phantom_acres(df, min_density_percent)` (source default
`min_density_percent = 0.15`): an empty grid is returned unchanged before
any median is computed; otherwise cells with `n_points` below
`median * min_density_percent` are dropped, keeping the original order. -/
def filter_phantom_acres (df : List AssignedCell) (min_density_percent : ℚ) :
    List AssignedCell :=
  if df.length = 0 then df
  else
    let median_points := medianNPoints df
    let cutoff := median_points * min_density_percent
    df.filter fun c => cutoff ≤ (c.n_points : ℚ)

/-- One output row of the nitrogen merge: grid row `g` with the mean rate
of the nitrogen points whose key equals `k` (`none` when unmatched). -/
def mergeRow (nitrogen_df : List NPoint) (key : NPoint → ℤ) (k : ℤ)
    (g : GridCell) : NCell :=
  let matching := nitrogen_df.filter fun p => key p = k
  { toGridCell := g
    mean_nitrogen_lb_ac :=
      if matching.length = 0 then none
      else some ((matching.map NPoint.nitrogen_lb_ac).sum / matching.length) }

/-- Embeds `merge_nitrogen_into_grid(grid_df, nitrogen_df)`.

On an empty grid `df["x_max"].iloc[0]` raises an IndexError, modelled as
the error branch.  Otherwise the cell size and origins are recovered from
the grid's own geometry, `num_cols` is
`round((max x_min - x_origin)/cell_size) + 1`, and each grid row receives
the mean nitrogen rate of the points sharing its key (`none` = NaN for
unmatched cells).  The source leaves any extra aggregate columns of
`grid_df` untouched; the embedding carries the geometry columns they key on. -/
def merge_nitrogen_into_grid (grid_df : List GridCell) (nitrogen_df : List NPoint) :
    Except String (List NCell) :=
  match grid_df with
  | [] => .error "single positional indexer is out-of-bounds"
  | g0 :: grest =>
    let cs := g0.x_max - g0.x_min
    let x_origin := seriesMin g0.x_min (grest.map GridCell.x_min)
    let y_origin := seriesMin g0.y_min (grest.map GridCell.y_min)
    let x_min_max := seriesMax g0.x_min (grest.map GridCell.x_min)
    let num_cols := nround ((x_min_max - x_origin) / cs) + 1
    let nkey := fun (p : NPoint) =>
      gridKeyOf num_cols (pointCol y_origin cs p.y) (pointCol x_origin cs p.x)
    let ckey := fun (g : GridCell) =>
      gridKeyOf num_cols (cellCol y_origin cs g.y_min) (cellCol x_origin cs g.x_min)
    .ok ((g0 :: grest).map fun g => mergeRow nitrogen_df nkey (ckey g) g)

/-! ## Multi-pass nitrogen combination (src/demetra/ingest/nitrogen_loader.py) -/

/-- `df.round(1)` on a coordinate: numpy/pandas round to one decimal place,
half to even. -/
def rnd1 (q : ℚ) : ℚ :=
  (nround (q * 10) : ℚ) / 10

/-- Ascending order on the `(x_round, y_round)` group keys, as pandas
`groupby` sorts its keys (lexicographic on the tuple). -/
def lexLe (a b : ℚ × ℚ) : Prop :=
  a.1 < b.1 ∨ (a.1 = b.1 ∧ a.2 ≤ b.2)

instance : DecidableRel lexLe := fun a b =>
  inferInstanceAs (Decidable (a.1 < b.1 ∨ (a.1 = b.1 ∧ a.2 ≤ b.2)))

/-- The concatenation of all successfully loaded nitrogen frames with both
coordinates rounded to one decimal: `pd.concat(dfs)` followed by the
`x_round` / `y_round` columns.  Each element of `loaded` is the result of
`load_nitrogen_shapefile` on one path (`none` when no recognised rate
column was found and the file is skipped). -/
def nConcatRounded (loaded : List (Option (List NPoint))) : List NPoint :=
  ((loaded.filterMap id).flatten).map fun p =>
    { p with x := rnd1 p.x, y := rnd1 p.y }

/-- Embeds `combine_multiple_n_files`: shapefile loading is abstracted to
the per-path results `loaded`.  If every load failed the function logs and
returns `None`; otherwise it concatenates the frames, rounds coordinates
to one decimal, and `groupby(["x_round","y_round"]).sum()` the rates —
one output row per distinct rounded location, in pandas' sorted key
order, whose rate is the sum over every concatenated point at that
rounded location. -/
def combine_multiple_n_files (loaded : List (Option (List NPoint))) :
    Option (List NPoint) :=
  let dfs := loaded.filterMap id
  if dfs.isEmpty then none
  else
    let rounded := nConcatRounded loaded
    let keys := ((rounded.map fun p => (p.x, p.y)).dedup).insertionSort lexLe
    some (keys.map fun k =>
      { x := k.1
        y := k.2
        nitrogen_lb_ac :=
          ((rounded.filter fun p => (p.x, p.y) = k).map NPoint.nitrogen_lb_ac).sum })

/-! ## End-to-end field grid (src/demetra/grid/builder.py, build_field_grid) -/

/-- Embeds `build_field_grid`: `load_yield_points` (shapefile I/O, CRS
transform and cleaning) is abstracted to its result `yield_df`; the rest
is build → assign → keep only cells that actually received yield data
(`n_points > 0`). -/
def build_field_grid (yield_df : List Point) (cell_size : ℚ) (units : String) :
    Except String (List AssignedCell) :=
  match build_acre_grid yield_df cell_size units with
  | .error e => .error e
  | .ok grid_df =>
    match assign_points_to_grid yield_df grid_df with
    | .error e => .error e
    | .ok grid_with_yield =>
      .ok (grid_with_yield.filter fun c => 0 < c.n_points)

/-! ## Concrete inputs used by per-claim counterexamples and witnesses -/

/-- Three yield points whose grid is 2 x 2; the corner point `(20, 0)` gets
bucket `(col, row) = (2, 0)`, outside the column range, yet its key
`0*2 + 2 = 2` aliases the key of the cell at `(col, row) = (0, 1)`. -/
def aliasPts : List Point :=
  [⟨0, 0, 1, "f", "g"⟩, ⟨20, 20, 1, "f", "g"⟩, ⟨20, 0, 1, "f", "g"⟩]

/-- Two yield points with extent 15 x 15 (not a multiple of the cell size). -/
def fracPts : List Point :=
  [⟨0, 0, 1, "f", "g"⟩, ⟨15, 15, 2, "f", "g"⟩]

/-- The four corner points of the spec's §8.7 scenario, with measurements
100, 200, 300, 400 at `(0,0)`, `(10,0)`, `(0,10)`, `(10,10)`. -/
def cornerPts : List Point :=
  [⟨0, 0, 100, "f", "g"⟩, ⟨10, 0, 200, "f", "g"⟩,
   ⟨0, 10, 300, "f", "g"⟩, ⟨10, 10, 400, "f", "g"⟩]

/-- The single cell the builder produces for `cornerPts` at cell size 10. -/
def cornerCell : GridCell :=
  ⟨"f", "g", "00000", 0, 10, 0, 10, 5, 5, "m"⟩

/-- An assigned cell with the given point count (geometry immaterial to the
phantom filter, which reads only `n_points`). -/
def cellWithN (n : ℕ) : AssignedCell :=
  ⟨⟨"f", "g", "00000", 0, 10, 0, 10, 5, 5, "m"⟩, some 1, n⟩

/-- Five cells with point counts 5, 6, 40, 41, 42: the first pass's cutoff
is `40 * 0.15 = 6`, dropping only the 5; the survivors' median rises to
40.5, so a second pass's cutoff 6.075 also drops the 6. -/
def phantomGrid : List AssignedCell :=
  [cellWithN 5, cellWithN 6, cellWithN 40, cellWithN 41, cellWithN 42]

/-- Three cells with equal point counts 10: filtering drops nothing and
keeps the median unchanged. -/
def steadyGrid : List AssignedCell :=
  [cellWithN 10, cellWithN 10, cellWithN 10]

/-- Two yield points spanning a single-cell grid. -/
def smallPts : List Point :=
  [⟨0, 0, 7, "f", "g"⟩, ⟨5, 5, 9, "f", "g"⟩]

/-- The single cell built from `smallPts` at cell size 10. -/
def smallCell : GridCell :=
  ⟨"f", "g", "00000", 0, 10, 0, 10, 5, 5, "m"⟩

end Demetra

namespace Demetra

/-! ## Evaluation sanity checks for the embedded primitives -/

example : (⌊(3 : ℚ) / 2⌋ : ℤ) = 1 := by with_unfolding_all decide

example : nround (1/2) = 0 := by with_unfolding_all decide

example : nround (3/2) = 2 := by with_unfolding_all decide

example : arangeLen 0 15 10 = 2 := by with_unfolding_all decide

example : median [5, 6, 40, 41, 42] = 40 := by with_unfolding_all decide

example :
    build_acre_grid [⟨0, 0, 7, "f", "g"⟩, ⟨5, 5, 9, "f", "g"⟩] 10 "m" =
      .ok [⟨"f", "g", "00000", 0, 10, 0, 10, 5, 5, "m"⟩] := by with_unfolding_all rfl

end Demetra

namespace Demetra

/-! ## Shared lemmas about the numeric helpers -/

theorem seriesMin_le_left {α : Type} [LinearOrder α] (a : α) (l : List α) :
    seriesMin a l ≤ a := by
  induction l generalizing a with
  | nil => exact le_refl a
  | cons b l ih =>
    exact le_trans (ih (min a b)) (min_le_left a b)

theorem seriesMin_le_mem {α : Type} [LinearOrder α] {b : α} (a : α) {l : List α}
    (hb : b ∈ l) : seriesMin a l ≤ b := by
  induction l generalizing a with
  | nil => cases hb
  | cons c l ih =>
    rcases List.mem_cons.mp hb with h | h
    · subst h
      exact le_trans (seriesMin_le_left (min a b) l) (min_le_right a b)
    · exact ih (min a c) h

theorem seriesMin_eq_left {α : Type} [LinearOrder α] {a : α} {l : List α}
    (h : ∀ b ∈ l, a ≤ b) : seriesMin a l = a := by
  induction l generalizing a with
  | nil => rfl
  | cons b l ih =>
    have hab : min a b = a := min_eq_left (h b (List.mem_cons_self b l))
    show seriesMin (min a b) l = a
    rw [hab]
    exact ih fun c hc => h c (List.mem_cons_of_mem b hc)

theorem le_seriesMax_left {α : Type} [LinearOrder α] (a : α) (l : List α) :
    a ≤ seriesMax a l := by
  induction l generalizing a with
  | nil => exact le_refl a
  | cons b l ih =>
    exact le_trans (le_max_left a b) (ih (max a b))

theorem le_seriesMax_mem {α : Type} [LinearOrder α] {b : α} (a : α) {l : List α}
    (hb : b ∈ l) : b ≤ seriesMax a l := by
  induction l generalizing a with
  | nil => cases hb
  | cons c l ih =>
    rcases List.mem_cons.mp hb with h | h
    · subst h
      exact le_trans (le_max_right a b) (le_seriesMax_left (max a b) l)
    · exact ih (max a c) h

theorem seriesMax_le {α : Type} [LinearOrder α] {a M : α} {l : List α}
    (ha : a ≤ M) (h : ∀ b ∈ l, b ≤ M) : seriesMax a l ≤ M := by
  induction l generalizing a with
  | nil => exact ha
  | cons b l ih =>
    exact ih (max_le ha (h b (List.mem_cons_self b l)))
      fun c hc => h c (List.mem_cons_of_mem b hc)

theorem nround_intCast (k : ℤ) : nround (k : ℚ) = k := by
  unfold nround
  rw [Int.floor_intCast]
  simp only [sub_self]
  norm_num

theorem nround_natCast (n : ℕ) : nround (n : ℚ) = n := by
  have : ((n : ℤ) : ℚ) = (n : ℚ) := by push_cast; rfl
  rw [← this, nround_intCast]

end Demetra

namespace Demetra

/-! ## C7 -/

/-- C7: for every `min_density_fraction`, applying the phantom filter to an
empty (zero-row) grid returns the zero-row grid unchanged; the early
return fires before any median or division is computed (the median and
cutoff sit under the else branch, which is never evaluated). -/
theorem C7_phantom_filter_empty_grid (min_density_percent : ℚ) :
    filter_phantom_acres [] min_density_percent = [] := rfl

/-! ## C6 -/

/-- C6 counterexample: on an empty point set `build_acre_grid` does not
raise the descriptive error "no points to grid" — no such guard exists in
the source; what it raises is numpy's
`ValueError: cannot convert float NaN to integer` from
`np.arange(nan, nan, cell_size)` after the empty-frame extent comes out
NaN. -/
theorem C6_counterexample :
    build_acre_grid [] 10 "m" ≠ Except.error "no points to grid" := by
  intro h
  rw [build_acre_grid] at h
  exact absurd (Except.error.inj h) (by decide)

/-- C6 (amended): for an empty input point set the grid builder does fail
fast — no degenerate grid is returned — but with numpy's low-level
`ValueError: cannot convert float NaN to integer` (the empty extent is
NaN and `np.arange` rejects it), not with a descriptive
"no points to grid" error, which appears nowhere in the source. -/
theorem C6_empty_input_fails (cell_size : ℚ) (units : String) :
    build_acre_grid [] cell_size units
      = Except.error "cannot convert float NaN to integer" := rfl

/-! ## C5 -/

/-- C5 counterexample: with origin `(0, 0)`, cell size 10 and
`num_columns = 2` (the 2 x 2 grid of `aliasPts`), the point `(20, 0)` and
the cell with `(x_min, y_min) = (0, 10)` are assigned the same key
`2 = 0*2 + 2 = 1*2 + 0`, yet their column indices differ (2 vs 0): the
claimed "same key iff indices match in both dimensions" fails for
out-of-range indices. -/
theorem C5_counterexample :
    gridKeyOf 2 (pointCol 0 10 0) (pointCol 0 10 20)
        = gridKeyOf 2 (cellCol 0 10 10) (cellCol 0 10 0)
      ∧ pointCol 0 10 20 ≠ cellCol 0 10 0 := by
  with_unfolding_all decide

/-- C5 (amended): under the key scheme `key = row * num_columns + column`,
a point and a cell whose column indices both lie within
`[0, num_columns)` (and `num_columns > 0`) are assigned the same key if
and only if the point's floored indices match the cell's rounded indices
in both dimensions.  Matching indices always give matching keys; the
converse needs the in-range assumption, as aliasing is possible
otherwise. -/
theorem C5_same_key_iff_indices_match (xo yo cs : ℚ) (N : ℤ)
    (px py cxm cym : ℚ)
    (hp0 : 0 ≤ pointCol xo cs px) (hpN : pointCol xo cs px < N)
    (hc0 : 0 ≤ cellCol xo cs cxm) (hcN : cellCol xo cs cxm < N) :
    gridKeyOf N (pointCol yo cs py) (pointCol xo cs px)
        = gridKeyOf N (cellCol yo cs cym) (cellCol xo cs cxm)
      ↔ pointCol xo cs px = cellCol xo cs cxm
        ∧ pointCol yo cs py = cellCol yo cs cym := by
  unfold gridKeyOf
  set c1 := pointCol xo cs px with hc1
  set r1 := pointCol yo cs py with hr1
  set c2 := cellCol xo cs cxm with hc2
  set r2 := cellCol yo cs cym with hr2
  constructor
  · intro h
    have hdiff : c1 - c2 = (r2 - r1) * N := by linarith [h]
    have habs : |c1 - c2| < N := by
      rw [abs_lt]
      constructor <;> linarith
    rcases eq_or_ne r1 r2 with hr | hr
    · constructor
      · have : c1 - c2 = 0 := by rw [hdiff, hr]; ring
        linarith
      · exact hr
    · exfalso
      have h1 : (1 : ℤ) ≤ |r2 - r1| := Int.one_le_abs (sub_ne_zero.mpr (Ne.symm hr))
      have h2 : |c1 - c2| = |r2 - r1| * |N| := by rw [hdiff, abs_mul]
      have h3 : |N| = N := abs_of_pos (lt_of_le_of_lt hc0 hcN)
      nlinarith [habs, h1, h2, h3]
  · rintro ⟨h1, h2⟩
    rw [h1, h2]

/-- C5 witness: the amended equivalence applied with origin `(0,0)`,
cell size 10, `num_columns = 2`, the point `(5, 15)` and the cell at
`(x_min, y_min) = (0, 10)`: indices match (column 0, row 1), so the keys
agree. -/
theorem C5_witness :
    gridKeyOf 2 (pointCol 0 10 15) (pointCol 0 10 5)
      = gridKeyOf 2 (cellCol 0 10 10) (cellCol 0 10 0) :=
  (C5_same_key_iff_indices_match 0 0 10 2 5 15 0 10
      (by with_unfolding_all decide) (by with_unfolding_all decide)
      (by with_unfolding_all decide) (by with_unfolding_all decide)).mpr
    ⟨by with_unfolding_all decide, by with_unfolding_all decide⟩

end Demetra
namespace Demetra

/-! ## C3 -/

/-- C3 counterexample: in the spec's scenario (4 corner points, cell size
10) the builder does yield the single cell `[0,10] x [0,10]`, but the
assigner puts only ONE point into it, not all 4: the points at `x = 10`
or `y = 10` get floored bucket index 1 in that dimension, outside the
1 x 1 grid, so `n_points = 1` and the mean is 100 (the measurement at
`(0,0)`), not the mean 250 of all four measurements. -/
theorem C3_counterexample :
    (assign_points_to_grid cornerPts [cornerCell]).toOption.map
        (fun l => l.map AssignedCell.n_points) = some [1]
      ∧ (1 : ℕ) ≠ 4 := by
  with_unfolding_all decide

/-- C3 (amended): for the 4 points at `(0,0), (10,0), (0,10), (10,10)`
with `cell_size = 10`, `build_acre_grid` yields exactly one cell with
bounding box `[0,10] x [0,10]`, and `assign_points_to_grid` places only
the point `(0,0)` into it — the three boundary points bucket outside the
single-cell grid — so `n_points = 1` and the mean yield is that one
point's measurement (100), not the mean of all 4. -/
theorem C3_corner_scenario :
    build_acre_grid cornerPts 10 "m" = .ok [cornerCell]
      ∧ assign_points_to_grid cornerPts [cornerCell]
          = .ok [⟨cornerCell, some 100, 1⟩] := by
  constructor
  · with_unfolding_all rfl
  · with_unfolding_all rfl

/-! ## C2 -/

/-- C2 counterexample: two points spanning a 15 x 15 extent with cell size
10 produce a 2 x 2 = 4-cell grid (`np.arange(0, 15, 10) = [0, 10]`,
i.e. ceil(15/10) = 2 per dimension), not the claimed
`floor(15/10) * floor(15/10) = 1`. -/
theorem C2_counterexample :
    (build_acre_grid fracPts 10 "m").toOption.map List.length = some 4
      ∧ (⌊((15 : ℚ) - 0) / 10⌋.toNat * ⌊((15 : ℚ) - 0) / 10⌋.toNat) = 1 := by
  with_unfolding_all decide

/-! ## C9 -/

/-- C9 counterexample: a SINGLE pass holding two points at distinct raw
locations `(0.01, 0)` and `(0.02, 0)` that share the rounded location
`(0.0, 0.0)` combines to the one point `(0, 0)` with rate `5 + 7 = 12`:
both of the pass's points are summed into the location, contradicting the
claim's "each pass contributing one point per distinct rounded location"
(which would leave 5 or 7, never 12). -/
theorem C9_counterexample :
    combine_multiple_n_files [some [⟨1/100, 0, 5⟩, ⟨2/100, 0, 7⟩]]
        = some [⟨0, 0, 12⟩]
      ∧ (12 : ℚ) ≠ 5 ∧ (12 : ℚ) ≠ 7 := by
  with_unfolding_all decide

/-! ## C1 -/

/-- C1 counterexample: for `aliasPts` (grid 2 x 2 built from the same
points, cell size 10), the total `n_points` over all cells is 2, while
only ONE point has both bucket indices inside
`[0, num_columns) x [0, num_rows) = [0,2) x [0,2)`: the out-of-range
point `(20, 0)` with `(col,row) = (2,0)` has key `0*2 + 2 = 2`, which
aliases the in-grid key of the cell at `(col,row) = (0,1)` and is counted
anyway. -/
theorem C1_counterexample :
    (assign_points_to_grid aliasPts
          ((build_acre_grid aliasPts 10 "m").toOption.getD [])).toOption.map
        sumNPoints = some 2
      ∧ (aliasPts.filter fun p =>
            0 ≤ pointCol 0 10 p.x ∧ pointCol 0 10 p.x < 2
              ∧ 0 ≤ pointCol 0 10 p.y ∧ pointCol 0 10 p.y < 2).length = 1
      ∧ (2 : ℕ) ≠ 1 := by
  with_unfolding_all decide

/-! ## C4 -/

/-- C4 counterexample: on `phantomGrid` (point counts 5, 6, 40, 41, 42)
with the default fraction 0.15, the first filter pass keeps
`[6, 40, 41, 42]` (cutoff `40 * 0.15 = 6`) but the second pass drops the
6 as well (the survivors' median is 40.5, cutoff 6.075): the phantom
filter is not idempotent. -/
theorem C4_counterexample :
    filter_phantom_acres (filter_phantom_acres phantomGrid (15/100)) (15/100)
      ≠ filter_phantom_acres phantomGrid (15/100) := by
  with_unfolding_all decide

/-- C4 (amended): applying the phantom filter twice equals applying it
once whenever the filtered grid's median `n_points` equals the original
grid's median (then the recomputed cutoff is unchanged and every survivor
already satisfies it).  In general the second pass can drop further
cells, because removing below-cutoff cells can raise the median and hence
the cutoff. -/
theorem C4_phantom_filter_idempotent (df : List AssignedCell)
    (min_density_percent : ℚ)
    (h : medianNPoints (filter_phantom_acres df min_density_percent)
        = medianNPoints df) :
    filter_phantom_acres (filter_phantom_acres df min_density_percent)
        min_density_percent
      = filter_phantom_acres df min_density_percent := by
  by_cases hdf : df.length = 0
  · simp [filter_phantom_acres, hdf]
  · set g := filter_phantom_acres df min_density_percent with hg
    by_cases hgl : g.length = 0
    · simp [filter_phantom_acres, hgl]
    · show (if g.length = 0 then g
          else g.filter fun c =>
            medianNPoints g * min_density_percent ≤ (c.n_points : ℚ)) = g
      rw [if_neg hgl, h]
      apply List.filter_eq_self.mpr
      intro c hc
      have hmem : c ∈ df.filter fun c =>
          medianNPoints df * min_density_percent ≤ (c.n_points : ℚ) := by
        have : g = df.filter fun c =>
            medianNPoints df * min_density_percent ≤ (c.n_points : ℚ) := by
          rw [hg]
          show (if df.length = 0 then df else _) = _
          rw [if_neg hdf]
        exact this ▸ hc
      exact (List.mem_filter.mp hmem).2

/-- C4 witness: on `steadyGrid` (all point counts 10) with fraction 0.15
the filter keeps everything and the median is unchanged, so the double
application equals the single one. -/
theorem C4_witness :
    filter_phantom_acres (filter_phantom_acres steadyGrid (15/100)) (15/100)
      = filter_phantom_acres steadyGrid (15/100) :=
  C4_phantom_filter_idempotent steadyGrid (15/100) (by with_unfolding_all decide)

end Demetra
namespace Demetra

/-! ## Structure of the built grid -/

theorem buildCells_length (farm fld : String) (minx miny cs : ℚ) (C R : ℕ)
    (u : String) : (buildCells farm fld minx miny cs C R u).length = R * C := by
  unfold buildCells
  rw [List.length_flatMap]
  simp only [Function.comp_def, List.length_map, List.length_range]
  rw [List.map_const', List.sum_replicate, smul_eq_mul, List.length_range]

theorem mem_buildCells {farm fld : String} {minx miny cs : ℚ} {C R : ℕ}
    {u : String} {g : GridCell} :
    g ∈ buildCells farm fld minx miny cs C R u
      ↔ ∃ c r, c < C ∧ r < R ∧ g = cellAt farm fld minx miny cs C u c r := by
  unfold buildCells
  simp only [List.mem_flatMap, List.mem_map, List.mem_range]
  constructor
  · rintro ⟨r, hr, c, hc, rfl⟩
    exact ⟨c, r, hc, hr, rfl⟩
  · rintro ⟨c, r, hc, hr, rfl⟩
    exact ⟨r, hr, c, hc, rfl⟩

theorem buildCells_eq_map (farm fld : String) (minx miny cs : ℚ) (C R : ℕ)
    (u : String) :
    buildCells farm fld minx miny cs C R u
      = (List.range (R * C)).map fun i =>
          cellAt farm fld minx miny cs C u (i % C) (i / C) := by
  induction R with
  | zero => simp [buildCells]
  | succ R ih =>
    rcases Nat.eq_zero_or_pos C with hC | hC
    · subst hC
      simp [buildCells]
    · unfold buildCells at ih ⊢
      rw [List.range_succ, List.flatMap_append, ih, Nat.succ_mul,
        List.range_add, List.map_append, List.map_map]
      congr 1
      simp only [List.flatMap_cons, List.flatMap_nil, List.append_nil]
      apply List.map_congr_left
      intro c hc
      have hclt : c < C := List.mem_range.mp hc
      have hmod : (R * C + c) % C = c := by
        rw [Nat.mul_comm R C, Nat.mul_add_mod]
        exact Nat.mod_eq_of_lt hclt
      have hdiv : (R * C + c) / C = R := by
        rw [Nat.mul_comm R C, Nat.mul_add_div hC]
        rw [Nat.div_eq_of_lt hclt, Nat.add_zero]
      simp [Function.comp, hmod, hdiv]

end Demetra
namespace Demetra

theorem cellCol_built {cs : ℚ} (hcs : cs ≠ 0) (minx : ℚ) (c : ℕ) :
    cellCol minx cs (minx + (c : ℚ) * cs) = c := by
  unfold cellCol
  have h : (minx + (c : ℚ) * cs - minx) / cs = (c : ℚ) := by
    field_simp
  rw [h, nround_natCast]

theorem built_head {farm fld u : String} {minx miny cs : ℚ} {C R : ℕ}
    {g0 : GridCell} {gt : List GridCell} (hC : 0 < C) (hR : 0 < R)
    (h : buildCells farm fld minx miny cs C R u = g0 :: gt) :
    g0 = cellAt farm fld minx miny cs C u 0 0 := by
  have hm := buildCells_eq_map farm fld minx miny cs C R u
  rw [h] at hm
  have hn : 0 < R * C := Nat.mul_pos hR hC
  have h0 := congrArg (fun l => l[0]?) hm
  simp only [List.getElem?_cons_zero, List.getElem?_map,
    List.getElem?_range hn, Option.map_some'] at h0
  rw [Option.some.inj h0]
  simp

theorem built_min_le_x_min {farm fld u : String} {minx miny cs : ℚ} {C R : ℕ}
    {g : GridCell} (hcs : 0 ≤ cs)
    (hg : g ∈ buildCells farm fld minx miny cs C R u) : minx ≤ g.x_min := by
  obtain ⟨c, r, _, _, rfl⟩ := mem_buildCells.mp hg
  show minx ≤ minx + (c : ℚ) * cs
  have : 0 ≤ (c : ℚ) * cs := mul_nonneg (by positivity) hcs
  linarith

theorem built_min_le_y_min {farm fld u : String} {minx miny cs : ℚ} {C R : ℕ}
    {g : GridCell} (hcs : 0 ≤ cs)
    (hg : g ∈ buildCells farm fld minx miny cs C R u) : miny ≤ g.y_min := by
  obtain ⟨c, r, _, _, rfl⟩ := mem_buildCells.mp hg
  show miny ≤ miny + (r : ℚ) * cs
  have : 0 ≤ (r : ℚ) * cs := mul_nonneg (by positivity) hcs
  linarith

end Demetra
namespace Demetra

theorem built_x_origin {farm fld u : String} {minx miny cs : ℚ} {C R : ℕ}
    {g0 : GridCell} {gt : List GridCell} (hcs : 0 ≤ cs) (hC : 0 < C) (hR : 0 < R)
    (hcons : buildCells farm fld minx miny cs C R u = g0 :: gt) :
    seriesMin g0.x_min (gt.map GridCell.x_min) = minx := by
  have hhead : g0.x_min = minx := by
    rw [built_head hC hR hcons]
    simp [cellAt]
  rw [hhead]
  apply seriesMin_eq_left
  intro b hb
  obtain ⟨g, hg, rfl⟩ := List.mem_map.mp hb
  exact built_min_le_x_min hcs (hcons ▸ List.mem_cons_of_mem g0 hg)

theorem built_y_origin {farm fld u : String} {minx miny cs : ℚ} {C R : ℕ}
    {g0 : GridCell} {gt : List GridCell} (hcs : 0 ≤ cs) (hC : 0 < C) (hR : 0 < R)
    (hcons : buildCells farm fld minx miny cs C R u = g0 :: gt) :
    seriesMin g0.y_min (gt.map GridCell.y_min) = miny := by
  have hhead : g0.y_min = miny := by
    rw [built_head hC hR hcons]
    simp [cellAt]
  rw [hhead]
  apply seriesMin_eq_left
  intro b hb
  obtain ⟨g, hg, rfl⟩ := List.mem_map.mp hb
  exact built_min_le_y_min hcs (hcons ▸ List.mem_cons_of_mem g0 hg)

theorem built_num_cols {farm fld u : String} {minx miny cs : ℚ} {C R : ℕ}
    {g0 : GridCell} {gt : List GridCell} (hcs : 0 < cs) (hC : 0 < C) (hR : 0 < R)
    (hcons : buildCells farm fld minx miny cs C R u = g0 :: gt) :
    seriesMax (cellCol minx cs g0.x_min)
        (gt.map fun g => cellCol minx cs g.x_min) = (C : ℤ) - 1 := by
  have hcol : ∀ g ∈ buildCells farm fld minx miny cs C R u,
      cellCol minx cs g.x_min ≤ (C : ℤ) - 1
        ∧ ∃ c : ℕ, c < C ∧ cellCol minx cs g.x_min = c := by
    intro g hg
    obtain ⟨c, r, hcC, _, rfl⟩ := mem_buildCells.mp hg
    have : cellCol minx cs (cellAt farm fld minx miny cs C u c r).x_min = c :=
      cellCol_built (ne_of_gt hcs) minx c
    refine ⟨?_, c, hcC, this⟩
    rw [this]
    omega
  apply le_antisymm
  · apply seriesMax_le
    · exact (hcol g0 (hcons ▸ List.mem_cons_self g0 gt)).1
    · intro b hb
      obtain ⟨g, hg, rfl⟩ := List.mem_map.mp hb
      exact (hcol g (hcons ▸ List.mem_cons_of_mem g0 hg)).1
  · have hmem : cellAt farm fld minx miny cs C u (C - 1) 0
        ∈ buildCells farm fld minx miny cs C R u :=
      mem_buildCells.mpr ⟨C - 1, 0, by omega, hR, rfl⟩
    have hval : cellCol minx cs (cellAt farm fld minx miny cs C u (C - 1) 0).x_min
        = ((C : ℤ) - 1) := by
      show cellCol minx cs (minx + ((C - 1 : ℕ) : ℚ) * cs) = (C : ℤ) - 1
      rw [cellCol_built (ne_of_gt hcs) minx (C - 1)]
      omega
    rw [hcons] at hmem
    rcases List.mem_cons.mp hmem with h | h
    · calc (C : ℤ) - 1 = cellCol minx cs g0.x_min := by rw [← h, hval]
        _ ≤ _ := le_seriesMax_left _ _
    · calc (C : ℤ) - 1
          = cellCol minx cs (cellAt farm fld minx miny cs C u (C - 1) 0).x_min :=
            hval.symm
        _ ≤ _ := le_seriesMax_mem _
            (List.mem_map.mpr ⟨_, h, rfl⟩)

end Demetra
namespace Demetra

theorem buildCells_cons {farm fld u : String} {minx miny cs : ℚ} {C R : ℕ}
    (hC : 0 < C) (hR : 0 < R) :
    ∃ g0 gt, buildCells farm fld minx miny cs C R u = g0 :: gt := by
  cases hbc : buildCells farm fld minx miny cs C R u with
  | nil =>
    have hl := buildCells_length farm fld minx miny cs C R u
    rw [hbc] at hl
    simp at hl
    omega
  | cons a t => exact ⟨a, t, rfl⟩

theorem assign_points_to_built_grid (farm fld u : String) (minx miny cs : ℚ)
    (C R : ℕ) (pts : List Point) (hcs : 0 < cs) (hC : 0 < C) (hR : 0 < R) :
    assign_points_to_grid pts (buildCells farm fld minx miny cs C R u)
      = .ok ((List.range (R * C)).map fun i : ℕ =>
          assignRow pts (pointKeyOf minx miny cs C) (i : ℤ)
            (cellAt farm fld minx miny cs C u (i % C) (i / C))) := by
  obtain ⟨g0, gt, hcons⟩ :=
    @buildCells_cons farm fld u minx miny cs C R hC hR
  have hsz : g0.x_max - g0.x_min = cs := by
    rw [built_head hC hR hcons]
    show minx + ((0 : ℕ) : ℚ) * cs + cs - (minx + ((0 : ℕ) : ℚ) * cs) = cs
    push_cast
    ring
  rw [hcons]
  show Except.ok _ = _
  rw [hsz, built_x_origin (le_of_lt hcs) hC hR hcons,
    built_y_origin (le_of_lt hcs) hC hR hcons,
    built_num_cols hcs hC hR hcons]
  have hCC : (C : ℤ) - 1 + 1 = (C : ℤ) := by ring
  rw [hCC, ← hcons, buildCells_eq_map, List.map_map]
  congr 1
  apply List.map_congr_left
  intro i hi
  have hiRC : i < R * C := List.mem_range.mp hi
  have hkey : gridKeyOf C
      (cellCol miny cs (cellAt farm fld minx miny cs C u (i % C) (i / C)).y_min)
      (cellCol minx cs (cellAt farm fld minx miny cs C u (i % C) (i / C)).x_min)
      = (i : ℤ) := by
    show gridKeyOf C (cellCol miny cs (miny + ((i / C : ℕ) : ℚ) * cs))
      (cellCol minx cs (minx + ((i % C : ℕ) : ℚ) * cs)) = (i : ℤ)
    rw [cellCol_built (ne_of_gt hcs) miny (i / C),
      cellCol_built (ne_of_gt hcs) minx (i % C)]
    unfold gridKeyOf
    have h2 : i / C * C + i % C = i := by
      rw [Nat.mul_comm]
      exact Nat.div_add_mod i C
    exact_mod_cast h2
  simp only [Function.comp, hkey]
  rfl

end Demetra
namespace Demetra

theorem count_key_split (k : Point → ℤ) (n : ℕ) (pts : List Point) :
    (pts.filter fun p => 0 ≤ k p ∧ k p < ((n : ℤ) + 1)).length
      = (pts.filter fun p => 0 ≤ k p ∧ k p < (n : ℤ)).length
        + (pts.filter fun p => k p = (n : ℤ)).length := by
  induction pts with
  | nil => rfl
  | cons p l ih =>
    simp only [List.filter_cons]
    split_ifs <;> simp only [decide_eq_true_eq] at * <;>
      (try simp only [List.length_cons]) <;> omega

theorem sum_count_filter_range (n : ℕ) (k : Point → ℤ) (pts : List Point) :
    ((List.range n).map fun i : ℕ =>
        (pts.filter fun p => k p = (i : ℤ)).length).sum
      = (pts.filter fun p => 0 ≤ k p ∧ k p < (n : ℤ)).length := by
  induction n with
  | zero =>
    simp only [List.range_zero, List.map_nil, List.sum_nil, Nat.cast_zero]
    have h : pts.filter (fun p => decide (0 ≤ k p ∧ k p < (0 : ℤ))) = [] :=
      List.filter_eq_nil_iff.mpr fun p _ => by
        simp only [decide_eq_true_eq]
        omega
    rw [h]
    rfl
  | succ n ih =>
    rw [List.range_succ, List.map_append, List.sum_append]
    simp only [List.map_cons, List.map_nil, List.sum_cons, List.sum_nil]
    rw [ih]
    have hcast : ((n + 1 : ℕ) : ℤ) = (n : ℤ) + 1 := by push_cast; ring
    rw [hcast, count_key_split k n pts]
    omega

end Demetra
namespace Demetra

/-- C1 (amended): for every non-empty point set whose built grid (cell
size `s > 0`) is nonempty, the sum of `n_points` over all cells after
`assign_points_to_grid` equals the number of input points whose combined
key `row * num_columns + col` lies in `[0, num_cells)` — a point whose
per-dimension indices fall outside `[0, num_columns) x [0, num_rows)` can
still alias onto an in-grid key and is then counted (see the
counterexample); in particular the sum equals the total number of points
whenever every point lies within the half-open extent
`[min_x, max_x) x [min_y, max_y)` of the grid's own computed extent. -/
theorem C1_conservation (pts : List Point) (s : ℚ) (u : String)
    (grid : List GridCell) (assigned : List AssignedCell)
    (hs : 0 < s)
    (hb : build_acre_grid pts s u = .ok grid)
    (hne : grid ≠ [])
    (ha : assign_points_to_grid pts grid = .ok assigned) :
    sumNPoints assigned
        = (pts.filter fun p =>
            0 ≤ pointKeyOf (extentMinX pts) (extentMinY pts) s (numColsOf pts s) p
              ∧ pointKeyOf (extentMinX pts) (extentMinY pts) s (numColsOf pts s) p
                  < ((numRowsOf pts s * numColsOf pts s : ℕ) : ℤ)).length
      ∧ ((∀ p ∈ pts,
            extentMinX pts ≤ p.x ∧ p.x < extentMaxX pts
              ∧ extentMinY pts ≤ p.y ∧ p.y < extentMaxY pts)
          → sumNPoints assigned = pts.length) := by
  cases pts with
  | nil => exact absurd hb (by simp [build_acre_grid])
  | cons p0 rest =>
    have hgrid : grid = buildCells p0.farm p0.field
        (extentMinX (p0 :: rest)) (extentMinY (p0 :: rest)) s
        (numColsOf (p0 :: rest) s) (numRowsOf (p0 :: rest) s) u :=
      (Except.ok.inj hb).symm
    set minx := extentMinX (p0 :: rest) with hminx
    set maxx := extentMaxX (p0 :: rest) with hmaxx
    set miny := extentMinY (p0 :: rest) with hminy
    set maxy := extentMaxY (p0 :: rest) with hmaxy
    set C := numColsOf (p0 :: rest) s with hC
    set R := numRowsOf (p0 :: rest) s with hR
    have hRC : 0 < R * C := by
      rcases Nat.eq_zero_or_pos (R * C) with h | h
      · exfalso
        apply hne
        have := buildCells_length p0.farm p0.field minx miny s C R u
        rw [← hgrid, h] at this
        exact List.length_eq_zero.mp this
      · exact h
    have hCpos : 0 < C := by
      rcases Nat.eq_zero_or_pos C with h | h
      · rw [h, Nat.mul_zero] at hRC
        exact absurd hRC (lt_irrefl 0)
      · exact h
    have hRpos : 0 < R := by
      rcases Nat.eq_zero_or_pos R with h | h
      · rw [h, Nat.zero_mul] at hRC
        exact absurd hRC (lt_irrefl 0)
      · exact h
    rw [hgrid, assign_points_to_built_grid p0.farm p0.field u minx miny s C R
      (p0 :: rest) hs hCpos hRpos] at ha
    have hassigned : assigned = (List.range (R * C)).map fun i : ℕ =>
        assignRow (p0 :: rest) (pointKeyOf minx miny s C) (i : ℤ)
          (cellAt p0.farm p0.field minx miny s C u (i % C) (i / C)) :=
      (Except.ok.inj ha).symm
    have hpart1 : sumNPoints assigned
        = ((p0 :: rest).filter fun p =>
            0 ≤ pointKeyOf minx miny s C p
              ∧ pointKeyOf minx miny s C p < ((R * C : ℕ) : ℤ)).length := by
      rw [hassigned]
      unfold sumNPoints
      rw [List.map_map]
      have heq : (List.range (R * C)).map
            (AssignedCell.n_points ∘ fun i : ℕ =>
              assignRow (p0 :: rest) (pointKeyOf minx miny s C) (i : ℤ)
                (cellAt p0.farm p0.field minx miny s C u (i % C) (i / C)))
          = (List.range (R * C)).map fun i : ℕ =>
              ((p0 :: rest).filter fun p =>
                pointKeyOf minx miny s C p = (i : ℤ)).length := by
        apply List.map_congr_left
        intro i _
        rfl
      rw [heq, sum_count_filter_range]
    refine ⟨hpart1, fun hhalf => ?_⟩
    rw [hpart1]
    have hfil : ((p0 :: rest).filter fun p =>
        0 ≤ pointKeyOf minx miny s C p
          ∧ pointKeyOf minx miny s C p < ((R * C : ℕ) : ℤ)) = p0 :: rest := by
      apply List.filter_eq_self.mpr
      intro p hp
      simp only [decide_eq_true_eq]
      obtain ⟨hx0, hxM, hy0, hyM⟩ := hhalf p hp
      have hcol0 : 0 ≤ pointCol minx s p.x := by
        unfold pointCol
        exact Int.floor_nonneg.mpr (div_nonneg (by linarith) hs.le)
      have hrow0 : 0 ≤ pointCol miny s p.y := by
        unfold pointCol
        exact Int.floor_nonneg.mpr (div_nonneg (by linarith) hs.le)
      have hcolC : pointCol minx s p.x < (C : ℤ) := by
        unfold pointCol
        apply Int.floor_lt.mpr
        have h1 : (p.x - minx) / s < (maxx - minx) / s :=
          (div_lt_div_iff_of_pos_right hs).mpr (by linarith)
        have h2 : (maxx - minx) / s ≤ ((C : ℤ) : ℚ) := by
          calc (maxx - minx) / s ≤ (⌈(maxx - minx) / s⌉ : ℚ) := Int.le_ceil _
            _ ≤ ((C : ℤ) : ℚ) := by
              have hle : ⌈(maxx - minx) / s⌉ ≤ ((C : ℕ) : ℤ) := by
                rw [hC]
                exact Int.self_le_toNat _
              exact_mod_cast hle
        linarith
      have hrowR : pointCol miny s p.y < (R : ℤ) := by
        unfold pointCol
        apply Int.floor_lt.mpr
        have h1 : (p.y - miny) / s < (maxy - miny) / s :=
          (div_lt_div_iff_of_pos_right hs).mpr (by linarith)
        have h2 : (maxy - miny) / s ≤ ((R : ℤ) : ℚ) := by
          calc (maxy - miny) / s ≤ (⌈(maxy - miny) / s⌉ : ℚ) := Int.le_ceil _
            _ ≤ ((R : ℤ) : ℚ) := by
              have hle : ⌈(maxy - miny) / s⌉ ≤ ((R : ℕ) : ℤ) := by
                rw [hR]
                exact Int.self_le_toNat _
              exact_mod_cast hle
        linarith
      constructor
      · unfold pointKeyOf gridKeyOf
        exact add_nonneg (mul_nonneg hrow0 (by positivity)) hcol0
      · unfold pointKeyOf gridKeyOf
        have hrow1 : pointCol miny s p.y + 1 ≤ (R : ℤ) := by omega
        have hexp : (pointCol miny s p.y + 1) * (C : ℤ) ≤ (R : ℤ) * (C : ℤ) :=
          mul_le_mul_of_nonneg_right hrow1 (by positivity)
        push_cast
        nlinarith [hcolC, hexp]
    rw [hfil]

end Demetra
namespace Demetra

/-- C1 witness: the amended conservation theorem applied to `smallPts`
(cell size 10, single-cell grid holding both points). -/
theorem C1_witness :
    sumNPoints [⟨smallCell, some 8, 2⟩]
      = (smallPts.filter fun p =>
          0 ≤ pointKeyOf (extentMinX smallPts) (extentMinY smallPts) 10
                (numColsOf smallPts 10) p
            ∧ pointKeyOf (extentMinX smallPts) (extentMinY smallPts) 10
                (numColsOf smallPts 10) p
                < ((numRowsOf smallPts 10 * numColsOf smallPts 10 : ℕ) : ℤ)).length :=
  (C1_conservation smallPts 10 "m" [smallCell] [⟨smallCell, some 8, 2⟩]
    (by norm_num) (by with_unfolding_all rfl) (by simp)
    (by with_unfolding_all rfl)).1

/-- C2 (amended): for every non-empty point set and cell size `s > 0`,
`build_acre_grid` produces exactly
`max(0, ceil(W/s)) * max(0, ceil(H/s))` grid cells — `np.arange`'s
half-open count rounds UP, not down as claimed (the repository's own
`test_grid_dimensions` uses `np.ceil`). -/
theorem C2_cell_count (pts : List Point) (s : ℚ) (u : String)
    (grid : List GridCell)
    (hb : build_acre_grid pts s u = .ok grid) :
    grid.length
      = (⌈(extentMaxX pts - extentMinX pts) / s⌉.toNat)
        * (⌈(extentMaxY pts - extentMinY pts) / s⌉.toNat) := by
  cases pts with
  | nil => exact absurd hb (by simp [build_acre_grid])
  | cons p0 rest =>
    have hgrid : grid = buildCells p0.farm p0.field
        (extentMinX (p0 :: rest)) (extentMinY (p0 :: rest)) s
        (numColsOf (p0 :: rest) s) (numRowsOf (p0 :: rest) s) u :=
      (Except.ok.inj hb).symm
    rw [hgrid, buildCells_length]
    show numRowsOf (p0 :: rest) s * numColsOf (p0 :: rest) s = _
    unfold numRowsOf numColsOf arangeLen
    exact Nat.mul_comm _ _

/-- C2 witness: the ceiling count theorem applied to `fracPts`
(extent 15 x 15, cell size 10): 4 cells. -/
theorem C2_witness :
    (((build_acre_grid fracPts 10 "m").toOption.getD []) : List GridCell).length
      = (⌈(extentMaxX fracPts - extentMinX fracPts) / 10⌉.toNat)
        * (⌈(extentMaxY fracPts - extentMinY fracPts) / 10⌉.toNat) :=
  C2_cell_count fracPts 10 "m" ((build_acre_grid fracPts 10 "m").toOption.getD [])
    (by with_unfolding_all rfl)

end Demetra
namespace Demetra

/-- C10: every row of the grid returned by `build_field_grid` has
`n_points >= 1`: the zero-point cells are dropped by the
`n_points > 0` filter inside `build_field_grid` itself, before the result
reaches any caller (phantom filter, enrichment, nitrogen merge). -/
theorem C10_field_grid_positive_counts (pts : List Point) (s : ℚ) (u : String)
    (g : List AssignedCell) (h : build_field_grid pts s u = .ok g) :
    ∀ c ∈ g, 1 ≤ c.n_points := by
  unfold build_field_grid at h
  cases hb : build_acre_grid pts s u with
  | error e =>
    rw [hb] at h
    exact absurd h (by simp)
  | ok grid =>
    rw [hb] at h
    dsimp only at h
    cases ha : assign_points_to_grid pts grid with
    | error e =>
      rw [ha] at h
      exact absurd h (by simp)
    | ok aw =>
      rw [ha] at h
      have hg : g = aw.filter fun c => 0 < c.n_points := (Except.ok.inj h).symm
      intro c hc
      rw [hg] at hc
      have hpos := (List.mem_filter.mp hc).2
      simp only [decide_eq_true_eq] at hpos
      omega

/-- C10 witness: the positivity theorem applied to `smallPts`, whose
field grid is the single cell with 2 points. -/
theorem C10_witness : 1 ≤ (⟨smallCell, some 8, 2⟩ : AssignedCell).n_points :=
  C10_field_grid_positive_counts smallPts 10 "m" [⟨smallCell, some 8, 2⟩]
    (by with_unfolding_all rfl) ⟨smallCell, some 8, 2⟩ (by simp)

end Demetra
namespace Demetra

theorem built_x_min_max {farm fld u : String} {minx miny cs : ℚ} {C R : ℕ}
    {g0 : GridCell} {gt : List GridCell} (hcs : 0 ≤ cs) (hC : 0 < C) (hR : 0 < R)
    (hcons : buildCells farm fld minx miny cs C R u = g0 :: gt) :
    seriesMax g0.x_min (gt.map GridCell.x_min) = minx + ((C : ℚ) - 1) * cs := by
  have hbound : ∀ g ∈ buildCells farm fld minx miny cs C R u,
      g.x_min ≤ minx + ((C : ℚ) - 1) * cs := by
    intro g hg
    obtain ⟨c, r, hcC, _, rfl⟩ := mem_buildCells.mp hg
    show minx + (c : ℚ) * cs ≤ minx + ((C : ℚ) - 1) * cs
    have hc1 : (c : ℚ) ≤ (C : ℚ) - 1 := by
      have : (c : ℚ) + 1 ≤ (C : ℚ) := by exact_mod_cast Nat.succ_le_of_lt hcC
      linarith
    nlinarith
  apply le_antisymm
  · apply seriesMax_le
    · exact hbound g0 (hcons ▸ List.mem_cons_self g0 gt)
    · intro b hb
      obtain ⟨g, hg, rfl⟩ := List.mem_map.mp hb
      exact hbound g (hcons ▸ List.mem_cons_of_mem g0 hg)
  · have hmem : cellAt farm fld minx miny cs C u (C - 1) 0
        ∈ buildCells farm fld minx miny cs C R u :=
      mem_buildCells.mpr ⟨C - 1, 0, by omega, hR, rfl⟩
    have hval : (cellAt farm fld minx miny cs C u (C - 1) 0).x_min
        = minx + ((C : ℚ) - 1) * cs := by
      show minx + ((C - 1 : ℕ) : ℚ) * cs = minx + ((C : ℚ) - 1) * cs
      have : ((C - 1 : ℕ) : ℚ) = (C : ℚ) - 1 := by
        have h1 : ((C - 1 : ℕ) : ℚ) + 1 = (C : ℚ) := by
          exact_mod_cast Nat.succ_pred_eq_of_pos hC
        linarith
      rw [this]
    rw [hcons] at hmem
    rcases List.mem_cons.mp hmem with h | h
    · rw [← h, hval]
      exact le_seriesMax_left _ _
    · calc minx + ((C : ℚ) - 1) * cs
          = (cellAt farm fld minx miny cs C u (C - 1) 0).x_min := hval.symm
        _ ≤ _ := le_seriesMax_mem _ (List.mem_map.mpr ⟨_, h, rfl⟩)

theorem merge_nitrogen_into_built_grid (farm fld u : String) (minx miny cs : ℚ)
    (C R : ℕ) (npts : List NPoint) (hcs : 0 < cs) (hC : 0 < C) (hR : 0 < R) :
    merge_nitrogen_into_grid (buildCells farm fld minx miny cs C R u) npts
      = .ok ((List.range (R * C)).map fun i : ℕ =>
          mergeRow npts (npointKeyOf minx miny cs C) (i : ℤ)
            (cellAt farm fld minx miny cs C u (i % C) (i / C))) := by
  obtain ⟨g0, gt, hcons⟩ :=
    @buildCells_cons farm fld u minx miny cs C R hC hR
  have hsz : g0.x_max - g0.x_min = cs := by
    rw [built_head hC hR hcons]
    show minx + ((0 : ℕ) : ℚ) * cs + cs - (minx + ((0 : ℕ) : ℚ) * cs) = cs
    push_cast
    ring
  rw [hcons]
  show Except.ok _ = _
  rw [hsz, built_x_origin (le_of_lt hcs) hC hR hcons,
    built_y_origin (le_of_lt hcs) hC hR hcons,
    built_x_min_max (le_of_lt hcs) hC hR hcons]
  have hnc : nround ((minx + ((C : ℚ) - 1) * cs - minx) / cs) + 1 = (C : ℤ) := by
    have hq : (minx + ((C : ℚ) - 1) * cs - minx) / cs = (((C : ℤ) - 1 : ℤ) : ℚ) := by
      push_cast
      field_simp
    rw [hq, nround_intCast]
    ring
  rw [hnc, ← hcons, buildCells_eq_map, List.map_map]
  congr 1
  apply List.map_congr_left
  intro i hi
  have hkey : gridKeyOf C
      (cellCol miny cs (cellAt farm fld minx miny cs C u (i % C) (i / C)).y_min)
      (cellCol minx cs (cellAt farm fld minx miny cs C u (i % C) (i / C)).x_min)
      = (i : ℤ) := by
    show gridKeyOf C (cellCol miny cs (miny + ((i / C : ℕ) : ℚ) * cs))
      (cellCol minx cs (minx + ((i % C : ℕ) : ℚ) * cs)) = (i : ℤ)
    rw [cellCol_built (ne_of_gt hcs) miny (i / C),
      cellCol_built (ne_of_gt hcs) minx (i % C)]
    unfold gridKeyOf
    have h2 : i / C * C + i % C = i := by
      rw [Nat.mul_comm]
      exact Nat.div_add_mod i C
    exact_mod_cast h2
  simp only [Function.comp, hkey]
  rfl

theorem pointCol_center {cs : ℚ} (hcs : 0 < cs) (minx : ℚ) (c : ℕ) :
    pointCol minx cs (minx + (c : ℚ) * cs + cs / 2) = c := by
  unfold pointCol
  have hq : (minx + (c : ℚ) * cs + cs / 2 - minx) / cs = (c : ℚ) + 1 / 2 := by
    field_simp
    ring
  rw [hq]
  have hc : (c : ℚ) = (((c : ℕ) : ℤ) : ℚ) := by push_cast; rfl
  rw [hc, Int.floor_int_add]
  have : ⌊(1 / 2 : ℚ)⌋ = 0 := by with_unfolding_all decide
  rw [this]
  ring

end Demetra
namespace Demetra

/-- C8: for every grid built by `build_acre_grid` (cell size `s > 0`) and
a secondary point set consisting of exactly one nitrogen point at the
center `(x_center, y_center)` of the grid cell at index `i`,
`merge_nitrogen_into_grid` assigns that point's value as the mean
nitrogen of exactly that one cell and null (`none`) to every other
cell. -/
theorem C8_merge_center_point (pts : List Point) (s : ℚ) (u : String)
    (grid : List GridCell) (merged : List NCell) (i : ℕ) (hi : i < grid.length)
    (v : ℚ) (hs : 0 < s)
    (hb : build_acre_grid pts s u = .ok grid)
    (hm : merge_nitrogen_into_grid grid
        [⟨(grid.get ⟨i, hi⟩).x_center, (grid.get ⟨i, hi⟩).y_center, v⟩]
      = .ok merged) :
    merged.length = grid.length
      ∧ ∀ (j : ℕ) (hj : j < merged.length),
          (merged.get ⟨j, hj⟩).mean_nitrogen_lb_ac
            = if j = i then some v else none := by
  cases pts with
  | nil => exact absurd hb (by simp [build_acre_grid])
  | cons p0 rest =>
    have hgrid : grid = buildCells p0.farm p0.field
        (extentMinX (p0 :: rest)) (extentMinY (p0 :: rest)) s
        (numColsOf (p0 :: rest) s) (numRowsOf (p0 :: rest) s) u :=
      (Except.ok.inj hb).symm
    set minx := extentMinX (p0 :: rest) with hminx
    set miny := extentMinY (p0 :: rest) with hminy
    set C := numColsOf (p0 :: rest) s with hCd
    set R := numRowsOf (p0 :: rest) s with hRd
    have hlen : grid.length = R * C := by
      rw [hgrid, buildCells_length]
    have hi' : i < R * C := hlen ▸ hi
    have hCpos : 0 < C := by
      rcases Nat.eq_zero_or_pos C with h | h
      · rw [h, Nat.mul_zero] at hi'
        omega
      · exact h
    have hRpos : 0 < R := by
      rcases Nat.eq_zero_or_pos R with h | h
      · rw [h, Nat.zero_mul] at hi'
        omega
      · exact h
    have hcell : grid.get ⟨i, hi⟩
        = cellAt p0.farm p0.field minx miny s C u (i % C) (i / C) := by
      have h1 : grid[i]?
          = some (cellAt p0.farm p0.field minx miny s C u (i % C) (i / C)) := by
        rw [hgrid, buildCells_eq_map]
        simp [List.getElem?_map, List.getElem?_range hi']
      have h2 : grid[i]? = some (grid.get ⟨i, hi⟩) := by
        rw [List.getElem?_eq_getElem hi, List.get_eq_getElem]
      exact Option.some.inj (h2.symm.trans h1)
    set np : NPoint :=
      ⟨(grid.get ⟨i, hi⟩).x_center, (grid.get ⟨i, hi⟩).y_center, v⟩ with hnpdef
    have hnpv : np.nitrogen_lb_ac = v := by rw [hnpdef]
    have hnp : npointKeyOf minx miny s C np = (i : ℤ) := by
      rw [hnpdef, hcell]
      show npointKeyOf minx miny s C
        ⟨minx + ((i % C : ℕ) : ℚ) * s + s / 2,
         miny + ((i / C : ℕ) : ℚ) * s + s / 2, v⟩ = (i : ℤ)
      unfold npointKeyOf
      dsimp only
      rw [pointCol_center hs minx (i % C), pointCol_center hs miny (i / C)]
      unfold gridKeyOf
      have h2 : i / C * C + i % C = i := by
        rw [Nat.mul_comm]
        exact Nat.div_add_mod i C
      exact_mod_cast h2
    rw [hgrid, merge_nitrogen_into_built_grid p0.farm p0.field u minx miny s C R
      [np] hs hCpos hRpos] at hm
    have hmerged : merged = (List.range (R * C)).map fun j : ℕ =>
        mergeRow [np] (npointKeyOf minx miny s C) (j : ℤ)
          (cellAt p0.farm p0.field minx miny s C u (j % C) (j / C)) :=
      (Except.ok.inj hm).symm
    have hmlen : merged.length = R * C := by
      rw [hmerged, List.length_map, List.length_range]
    refine ⟨by rw [hmlen, hlen], ?_⟩
    intro j hj
    have hj' : j < R * C := hmlen ▸ hj
    have hgetm : merged.get ⟨j, hj⟩
        = mergeRow [np] (npointKeyOf minx miny s C) (j : ℤ)
            (cellAt p0.farm p0.field minx miny s C u (j % C) (j / C)) := by
      have h1 : merged[j]?
          = some (mergeRow [np] (npointKeyOf minx miny s C) (j : ℤ)
              (cellAt p0.farm p0.field minx miny s C u (j % C) (j / C))) := by
        rw [hmerged]
        simp [List.getElem?_map, List.getElem?_range hj']
      have h2 : merged[j]? = some (merged.get ⟨j, hj⟩) := by
        rw [List.getElem?_eq_getElem hj, List.get_eq_getElem]
      exact Option.some.inj (h2.symm.trans h1)
    rw [hgetm]
    by_cases hij : j = i
    · subst hij
      have hfil : [np].filter
          (fun p => decide (npointKeyOf minx miny s C p = (j : ℤ))) = [np] := by
        simp [List.filter_cons, hnp]
      unfold mergeRow
      rw [hfil]
      simp [hnpv]
    · have hfil : [np].filter
          (fun p => decide (npointKeyOf minx miny s C p = (j : ℤ))) = [] := by
        simp only [List.filter_cons, List.filter_nil, hnp]
        have : ¬((i : ℤ) = (j : ℤ)) := by
          intro hc
          exact hij (by exact_mod_cast hc.symm)
        simp [this]
      unfold mergeRow
      rw [hfil]
      simp [hij]

end Demetra
namespace Demetra

/-- C8 witness: the merge theorem applied to the single-cell grid of
`smallPts` with one nitrogen point of rate 42 at the cell center
`(5, 5)`. -/
theorem C8_witness :
    (([⟨smallCell, some 42⟩] : List NCell).get ⟨0, by simp⟩).mean_nitrogen_lb_ac
      = if 0 = 0 then some (42 : ℚ) else none :=
  (C8_merge_center_point smallPts 10 "m" [smallCell] [⟨smallCell, some 42⟩] 0
      (by simp) 42 (by norm_num) (by with_unfolding_all rfl)
      (by with_unfolding_all rfl)).2 0 (by simp)

/-- C9 (amended): whenever `combine_multiple_n_files` returns a combined
frame, that frame has exactly one point per distinct rounded `(x, y)`
location, and each combined rate is the sum of the rates of ALL
concatenated pass points (across passes, and multiple points of one pass
alike) sharing that rounded location; every rounded input location
appears. -/
theorem C9_combine_sums_by_rounded_location
    (loaded : List (Option (List NPoint))) (out : List NPoint)
    (h : combine_multiple_n_files loaded = some out) :
    (out.map fun q => (q.x, q.y)).Nodup
      ∧ (∀ q ∈ out, q.nitrogen_lb_ac
          = (((nConcatRounded loaded).filter fun p =>
              (p.x, p.y) = (q.x, q.y)).map NPoint.nitrogen_lb_ac).sum)
      ∧ ∀ p ∈ nConcatRounded loaded, ∃ q ∈ out, q.x = p.x ∧ q.y = p.y := by
  unfold combine_multiple_n_files at h
  by_cases hdfs : (loaded.filterMap id).isEmpty
  · rw [if_pos hdfs] at h
    exact absurd h (by simp)
  · rw [if_neg hdfs] at h
    have hout : out = (((nConcatRounded loaded).map fun p =>
          (p.x, p.y)).dedup.insertionSort lexLe).map fun k =>
        ({ x := k.1, y := k.2,
           nitrogen_lb_ac := (((nConcatRounded loaded).filter fun p =>
             (p.x, p.y) = k).map NPoint.nitrogen_lb_ac).sum } : NPoint) :=
      (Option.some.inj h).symm
    set rounded := nConcatRounded loaded with hrnd
    set keys := ((rounded.map fun p => (p.x, p.y)).dedup).insertionSort lexLe
      with hkeys
    have hperm : keys.Perm ((rounded.map fun p => (p.x, p.y)).dedup) :=
      List.perm_insertionSort lexLe _
    have hkeysnodup : keys.Nodup :=
      hperm.nodup_iff.mpr (List.nodup_dedup _)
    have hmemkeys : ∀ k, k ∈ keys ↔ k ∈ rounded.map fun p => (p.x, p.y) := by
      intro k
      rw [hperm.mem_iff, List.mem_dedup]
    have houtmap : out.map (fun q => (q.x, q.y)) = keys := by
      rw [hout, List.map_map]
      have : ∀ k ∈ keys, ((fun q : NPoint => (q.x, q.y)) ∘ fun k : ℚ × ℚ =>
          ({ x := k.1, y := k.2,
             nitrogen_lb_ac := ((rounded.filter fun p =>
               (p.x, p.y) = k).map NPoint.nitrogen_lb_ac).sum } : NPoint)) k = k := by
        intro k _
        simp [Function.comp]
      rw [List.map_congr_left this]
      exact List.map_id' keys
    refine ⟨houtmap ▸ hkeysnodup, ?_, ?_⟩
    · intro q hq
      rw [hout] at hq
      obtain ⟨k, hk, rfl⟩ := List.mem_map.mp hq
      rfl
    · intro p hp
      have hk : (p.x, p.y) ∈ keys :=
        (hmemkeys (p.x, p.y)).mpr (List.mem_map.mpr ⟨p, hp, rfl⟩)
      refine ⟨NPoint.mk (p.x, p.y).1 (p.x, p.y).2
          (((rounded.filter fun q =>
            (q.x, q.y) = (p.x, p.y)).map NPoint.nitrogen_lb_ac).sum), ?_, rfl, rfl⟩
      rw [hout]
      exact List.mem_map.mpr ⟨(p.x, p.y), hk, rfl⟩

/-- C9 witness: the amended theorem applied to a single pass holding the
single point `(1, 2)` with rate 3 — the combined output is that point and
the location sum is its own rate. -/
theorem C9_witness :
    (([⟨1, 2, 3⟩] : List NPoint).map fun q => (q.x, q.y)).Nodup :=
  (C9_combine_sums_by_rounded_location [some [⟨1, 2, 3⟩]] [⟨1, 2, 3⟩]
    (by with_unfolding_all rfl)).1

end Demetra
